import Mathlib

/-!
# Verification of the assppweb download backend

Shallow embedding of the security- and lifecycle-critical parts of the
backend (`backend/src/services/downloadManager.ts`,
`backend/src/services/chunkedDownloader.ts`, the sinf injector, and
`backend/src/config.ts`), together with proofs of the specified
properties.

Conventions used throughout:
* Filesystem paths are modelled as lists of path segments of an absolute
  path (POSIX separators); `path.resolve` is modelled by `normalizePath`,
  which drops empty and `.` segments and lets `..` pop the previous
  segment (saturating at the root), and the string test
  `resolved.startsWith(base + path.sep)` is modelled at segment
  granularity (sound because sanitized segments never contain a
  separator).
* The WHATWG `new URL` parser is platform code, not repository code; the
  URL validator is therefore embedded over the parser's output (an
  optional protocol/hostname record).
* Fallible TypeScript code (functions that `throw`) is modelled with
  `Except String`; JavaScript string truthiness is modelled explicitly.
-/

namespace Asspp

/-! ## Path segment sanitizer (`safePathSegment`, downloadManager.ts 20-33) -/

/-- Character class of `SAFE_SEGMENT_RE = /^[a-zA-Z0-9._-]+$/`
(downloadManager.ts line 20). -/
def isSafeChar (c : Char) : Bool :=
  decide ((97 ≤ c.toNat ∧ c.toNat ≤ 122) ∨ (65 ≤ c.toNat ∧ c.toNat ≤ 90) ∨
    (48 ≤ c.toNat ∧ c.toNat ≤ 57) ∨ c = '.' ∨ c = '_' ∨ c = '-')

/-- `SAFE_SEGMENT_RE.test(value)`: the whole string is a nonempty run of
safe characters. -/
def matchesSafeRe (s : String) : Bool :=
  !s.data.isEmpty && s.data.all isSafeChar

/-- `value.replace(/[^a-zA-Z0-9._-]/g, "_")` (downloadManager.ts line 28). -/
def cleanSegment (v : String) : String :=
  ⟨v.data.map (fun c => if isSafeChar c then c else '_')⟩

/-- `safePathSegment(value, label)` (downloadManager.ts lines 23-33).
`!value` is string falsiness, i.e. `value = ""`. -/
def safePathSegment (value label : String) : Except String String :=
  if value = "" ∨ value = "." ∨ value = ".." then
    .error ("Invalid " ++ label)
  else if matchesSafeRe value then
    .ok value
  else if cleanSegment value = "" ∨ cleanSegment value = "." ∨ cleanSegment value = ".." then
    .error ("Invalid " ++ label)
  else
    .ok (cleanSegment value)

theorem cleanSegment_all_safe (v : String) :
    (cleanSegment v).data.all isSafeChar = true := by
  simp only [cleanSegment, List.all_map, List.all_eq_true, Function.comp_apply]
  intro c _
  cases hc : isSafeChar c with
  | true => simp [hc]
  | false =>
    rw [if_neg (by decide)]
    decide

theorem cleanSegment_length (v : String) :
    (cleanSegment v).data.length = v.data.length := by
  simp [cleanSegment]

/-- Any value returned by `safePathSegment` is a nonempty run of safe
characters and is neither `.` nor `..`.  Shared helper for the sanitizer
and destination-path developments. -/
theorem safePathSegment_ok_safe (v l r : String)
    (h : safePathSegment v l = .ok r) :
    r ≠ "" ∧ r.data.all isSafeChar = true ∧ r ≠ "." ∧ r ≠ ".." := by
  unfold safePathSegment at h
  by_cases h1 : v = "" ∨ v = "." ∨ v = ".."
  · rw [if_pos h1] at h
    exact absurd h (by simp)
  · rw [if_neg h1] at h
    by_cases h2 : matchesSafeRe v = true
    · rw [if_pos h2] at h
      obtain rfl : v = r := by simpa using h
      push_neg at h1
      exact ⟨h1.1, (Bool.and_eq_true _ _ |>.mp h2).2, h1.2.1, h1.2.2⟩
    · rw [if_neg h2] at h
      by_cases h3 : cleanSegment v = "" ∨ cleanSegment v = "." ∨ cleanSegment v = ".."
      · rw [if_pos h3] at h
        exact absurd h (by simp)
      · rw [if_neg h3] at h
        obtain rfl : cleanSegment v = r := by simpa using h
        push_neg at h3
        exact ⟨h3.1, cleanSegment_all_safe v, h3.2.1, h3.2.2⟩

/-! ## Download URL validator (`validateDownloadURL`, downloadManager.ts 38-60) -/

/-- Output of the WHATWG `new URL` parser that `validateDownloadURL`
inspects: `protocol` keeps its trailing colon (e.g. `"https:"`). A parse
failure is modelled as `none` at the call site. -/
structure URLParts where
  protocol : String
  hostname : String
deriving DecidableEq

/-- A suffix test on strings via reversed character lists (kernel
computable, unlike `String.endsWith`). -/
def strEndsWith (s pat : String) : Bool :=
  List.isPrefixOf pat.data.reverse s.data.reverse

/-- A prefix test on strings via character lists. -/
def strStartsWith (s pat : String) : Bool :=
  List.isPrefixOf pat.data s.data

/-- ASCII lowering of a string, character by character. -/
def lowerStr (s : String) : String := ⟨s.data.map Char.toLower⟩

/-- `String.prototype.split` with a one-character separator, on
character lists (JS semantics: splitting the empty string yields one
empty part). -/
def splitOnChar (sep : Char) : List Char → List (List Char)
  | [] => [[]]
  | c :: rest =>
    let r := splitOnChar sep rest
    if c = sep then [] :: r
    else
      match r with
      | h :: t => (c :: h) :: t
      | [] => [[c]]

/-- `ALLOWED_DOWNLOAD_HOSTS_RE = /\.apple\.com$/i` (line 36); the `i`
flag is modelled by ASCII lowercasing (WHATWG hostnames are ASCII). -/
def hostEndsWithAppleCom (host : String) : Bool :=
  strEndsWith (lowerStr host) ".apple.com"

/-- `/^\d+\.\d+\.\d+\.\d+$/.test(hostname)` (line 55): exactly four
dot-separated nonempty digit runs. -/
def isDottedQuad (host : String) : Bool :=
  let parts := splitOnChar (Char.ofNat 46) host.data
  parts.length == 4 && parts.all (fun p => !p.isEmpty && p.all Char.isDigit)

/-- `validateDownloadURL(url)` (downloadManager.ts lines 38-60), embedded
over the parse result of `new URL(url)`. -/
def validateDownloadURL (parsed : Option URLParts) : Except String Unit :=
  match parsed with
  | none => .error "Invalid download URL"
  | some u =>
    if u.protocol ≠ "https:" then .error "Download URL must use HTTPS"
    else if ¬ hostEndsWithAppleCom u.hostname then
      .error "Download URL must be from an Apple domain (*.apple.com)"
    else if isDottedQuad u.hostname ∨ strStartsWith u.hostname "[" then
      .error "Download URL must not use IP addresses"
    else .ok ()

/-- `true` iff an `Except` computation succeeded. -/
def isOkB {ε α : Type} : Except ε α → Bool
  | .ok _ => true
  | .error _ => false

/-- C5: the validator fails on parse failure, on non-HTTPS schemes, on
hostnames without the case-insensitive `.apple.com` suffix, and on
IPv4/bracketed-IPv6 literals; any URL it accepts has the HTTPS scheme, an
`*.apple.com` hostname, and no IP-literal hostname. -/
theorem validateDownloadURL_correct (p : Option URLParts) :
    (p = none → validateDownloadURL p = .error "Invalid download URL") ∧
    (∀ u, p = some u → u.protocol ≠ "https:" →
      validateDownloadURL p = .error "Download URL must use HTTPS") ∧
    (∀ u, p = some u → hostEndsWithAppleCom u.hostname = false →
      isOkB (validateDownloadURL p) = false) ∧
    (∀ u, p = some u →
      (isDottedQuad u.hostname = true ∨ strStartsWith u.hostname "[" = true) →
      isOkB (validateDownloadURL p) = false) ∧
    (∀ u, p = some u → validateDownloadURL p = .ok () →
      u.protocol = "https:" ∧ hostEndsWithAppleCom u.hostname = true ∧
        isDottedQuad u.hostname = false ∧ strStartsWith u.hostname "[" = false) := by
  refine ⟨?_, ?_, ?_, ?_, ?_⟩
  · rintro rfl; rfl
  · rintro u rfl hp
    simp [validateDownloadURL, hp]
  · rintro u rfl hh
    by_cases hp : u.protocol = "https:"
    · simp [validateDownloadURL, hp, hh, isOkB]
    · simp [validateDownloadURL, hp, isOkB]
  · rintro u rfl hip
    by_cases hp : u.protocol = "https:"
    · by_cases hh : hostEndsWithAppleCom u.hostname = true
      · have : isDottedQuad u.hostname = true ∨ strStartsWith u.hostname "[" = true := hip
        simp [validateDownloadURL, hp, hh, this, isOkB]
      · simp [validateDownloadURL, hp, hh, isOkB]
    · simp [validateDownloadURL, hp, isOkB]
  · rintro u rfl hok
    by_cases hp : u.protocol = "https:"
    · by_cases hh : hostEndsWithAppleCom u.hostname = true
      · by_cases hip : isDottedQuad u.hostname = true ∨ strStartsWith u.hostname "[" = true
        · simp [validateDownloadURL, hp, hh, hip] at hok
        · push_neg at hip
          refine ⟨hp, hh, ?_, ?_⟩
          · simpa using hip.1
          · simpa using hip.2
      · simp [validateDownloadURL, hp, hh] at hok
    · simp [validateDownloadURL, hp] at hok

/-- Witness for C5 at concrete inputs: a valid Apple CDN URL is accepted
with all the guaranteed properties, and a parse failure is rejected. -/
theorem validateDownloadURL_correct_witness :
    (("https:" : String) = "https:" ∧
      hostEndsWithAppleCom "iosapps.itunes.apple.com" = true ∧
      isDottedQuad "iosapps.itunes.apple.com" = false ∧
      strStartsWith "iosapps.itunes.apple.com" "[" = false) ∧
    validateDownloadURL none = .error "Invalid download URL" := by
  constructor
  · exact (validateDownloadURL_correct
      (some ⟨"https:", "iosapps.itunes.apple.com"⟩)).2.2.2.2
      ⟨"https:", "iosapps.itunes.apple.com"⟩ rfl (by rfl)
  · exact (validateDownloadURL_correct none).1 rfl

/-- C6: the path-segment sanitizer rejects `""`, `"."`, `".."`; returns
conforming inputs unchanged; otherwise replaces every non-conforming
character by `_` (failing if the result is empty, `"."` or `".."`); and
every returned value is a nonempty run of `[A-Za-z0-9._-]` characters
distinct from `"."` and `".."`. -/
theorem safePathSegment_correct (v l : String) :
    ((v = "" ∨ v = "." ∨ v = "..") →
      safePathSegment v l = .error ("Invalid " ++ l)) ∧
    (¬ (v = "" ∨ v = "." ∨ v = "..") → matchesSafeRe v = true →
      safePathSegment v l = .ok v) ∧
    (¬ (v = "" ∨ v = "." ∨ v = "..") → matchesSafeRe v = false →
      safePathSegment v l =
        (if cleanSegment v = "" ∨ cleanSegment v = "." ∨ cleanSegment v = ".."
          then .error ("Invalid " ++ l) else .ok (cleanSegment v))) ∧
    (∀ r, safePathSegment v l = .ok r →
      r ≠ "" ∧ r.data.all isSafeChar = true ∧ r ≠ "." ∧ r ≠ "..") := by
  refine ⟨?_, ?_, ?_, fun r h => safePathSegment_ok_safe v l r h⟩
  · intro h1
    rw [safePathSegment.eq_def, if_pos h1]
  · intro h1 h2
    rw [safePathSegment.eq_def, if_neg h1, if_pos h2]
  · intro h1 h2
    rw [safePathSegment.eq_def, if_neg h1, if_neg (by simp [h2])]

/-- Witness for C6 at concrete inputs: `"com.example app"` is sanitized
to `"com.example_app"`, which satisfies the guaranteed shape; `".."` is
rejected. -/
theorem safePathSegment_correct_witness :
    safePathSegment "com.example app" "bundleID" = .ok "com.example_app" ∧
    ("com.example_app" ≠ "" ∧
      ("com.example_app").data.all isSafeChar = true ∧
      "com.example_app" ≠ "." ∧ "com.example_app" ≠ "..") ∧
    safePathSegment ".." "accountHash" = .error "Invalid accountHash" := by
  refine ⟨by rfl, ?_, ?_⟩
  · exact (safePathSegment_correct "com.example app" "bundleID").2.2.2
      "com.example_app" (by rfl)
  · exact (safePathSegment_correct ".." "accountHash").1 (by decide)

/-! ## Chunk splitting (`splitChunks`, chunkedDownloader.ts 79-89) -/

/-- A byte range assigned to one download thread (`ChunkRange`,
chunkedDownloader.ts lines 12-16); `stop` models the inclusive `end`
field (`end` is a Lean keyword). -/
structure ChunkRange where
  index : Nat
  start : Nat
  stop : Nat
deriving DecidableEq

/-- The chunk the `splitChunks` loop constructs for index `i`. -/
def mkChunk (chunkSize totalSize i : Nat) : ChunkRange :=
  ⟨i, i * chunkSize, min (i * chunkSize + chunkSize - 1) (totalSize - 1)⟩

/-- Loop of `splitChunks` (chunkedDownloader.ts lines 82-87): `fuel`
iterations remain, `i` is the loop counter; `break` on
`start > totalSize - 1`. -/
def splitChunksGo (chunkSize totalSize : Nat) : Nat → Nat → List ChunkRange
  | 0, _ => []
  | fuel + 1, i =>
    if i * chunkSize > totalSize - 1 then []
    else mkChunk chunkSize totalSize i ::
      splitChunksGo chunkSize totalSize fuel (i + 1)

/-- `Math.ceil(totalSize / threads)` on naturals. -/
def ceilDiv (a b : Nat) : Nat := (a + b - 1) / b

/-- `splitChunks(totalSize)` with `this.threads = threads`
(chunkedDownloader.ts lines 79-89). -/
def splitChunks (totalSize threads : Nat) : List ChunkRange :=
  splitChunksGo (ceilDiv totalSize threads) totalSize threads 0

theorem ceilDiv_pos {a b : Nat} (ha : 1 ≤ a) (hb : 1 ≤ b) : 1 ≤ ceilDiv a b := by
  unfold ceilDiv
  rw [Nat.le_div_iff_mul_le (by omega : 0 < b)]
  omega

theorem le_mul_ceilDiv {a b : Nat} (hb : 1 ≤ b) : a ≤ b * ceilDiv a b := by
  have h1 := Nat.div_add_mod (a + b - 1) b
  have h2 := Nat.mod_lt (a + b - 1) (by omega : 0 < b)
  unfold ceilDiv
  omega

/-- The loop yields exactly the in-range indices, in order, each mapped
to its chunk. -/
theorem splitChunksGo_eq_filter_map (cs N : Nat) (hN : 1 ≤ N) :
    ∀ fuel i, splitChunksGo cs N fuel i =
      ((List.range' i fuel).filter (fun j => decide (j * cs + 1 ≤ N))).map
        (mkChunk cs N) := by
  intro fuel
  induction fuel with
  | zero => intro i; simp [splitChunksGo]
  | succ fuel ih =>
    intro i
    rw [List.range'_succ]
    by_cases hbr : i * cs > N - 1
    · have hp : ¬ (i * cs + 1 ≤ N) := by omega
      rw [splitChunksGo, if_pos hbr]
      rw [List.filter_cons_of_neg (by simpa using hp)]
      have : (List.range' (i + 1) fuel).filter (fun j => decide (j * cs + 1 ≤ N)) = [] := by
        rw [List.filter_eq_nil_iff]
        intro j hj
        have hj' := (List.mem_range'_1.mp hj).1
        have : i * cs ≤ j * cs := Nat.mul_le_mul_right cs (by omega)
        simp only [decide_eq_true_eq]
        omega
      rw [this]
      rfl
    · have hp : i * cs + 1 ≤ N := by omega
      rw [splitChunksGo, if_neg hbr]
      rw [List.filter_cons_of_pos (by simpa using hp), List.map_cons, ih (i + 1)]

/-- Closed form of `splitChunks`. -/
theorem splitChunks_eq_filter_map (N T : Nat) (hN : 1 ≤ N) :
    splitChunks N T =
      ((List.range T).filter (fun j => decide (j * ceilDiv N T + 1 ≤ N))).map
        (mkChunk (ceilDiv N T) N) := by
  rw [splitChunks, splitChunksGo_eq_filter_map _ _ hN, List.range_eq_range']

theorem splitChunksGo_head (cs N : Nat) :
    ∀ fuel i c, c ∈ (splitChunksGo cs N fuel i).head? →
      c = mkChunk cs N i ∧ i * cs ≤ N - 1 := by
  intro fuel i c hc
  cases fuel with
  | zero => simp [splitChunksGo] at hc
  | succ fuel =>
    rw [splitChunksGo] at hc
    by_cases hbr : i * cs > N - 1
    · rw [if_pos hbr] at hc
      simp at hc
    · rw [if_neg hbr] at hc
      simp only [List.head?_cons, Option.mem_def, Option.some.injEq] at hc
      exact ⟨hc.symm, by omega⟩

/-- Consecutive chunks are contiguous: each chunk starts one byte after
the previous chunk ends. -/
theorem splitChunksGo_chain (cs N : Nat) (hcs : 1 ≤ cs) :
    ∀ fuel i, List.Chain' (fun c d => d.start = c.stop + 1)
      (splitChunksGo cs N fuel i) := by
  intro fuel
  induction fuel with
  | zero => intro i; simp [splitChunksGo]
  | succ fuel ih =>
    intro i
    rw [splitChunksGo]
    by_cases hbr : i * cs > N - 1
    · rw [if_pos hbr]; simp
    · rw [if_neg hbr]
      rw [List.chain'_cons']
      refine ⟨?_, ih (i + 1)⟩
      intro d hd
      obtain ⟨rfl, hle⟩ := splitChunksGo_head cs N fuel (i + 1) d hd
      simp only [mkChunk]
      have h1 : (i + 1) * cs = i * cs + cs := by ring
      omega

theorem splitChunks_chain (N T : Nat) (hN : 1 ≤ N) (hT : 1 ≤ T) :
    List.Chain' (fun c d => d.start = c.stop + 1) (splitChunks N T) :=
  splitChunksGo_chain _ _ (ceilDiv_pos hN hT) T 0

theorem countP_range_eq_one (n v : Nat) (h : v < n) :
    (List.range n).countP (fun j => decide (j = v)) = 1 := by
  induction n with
  | zero => omega
  | succ n ih =>
    rw [List.range_succ, List.countP_append]
    by_cases hv : v = n
    · subst hv
      have : (List.range v).countP (fun j => decide (j = v)) = 0 := by
        rw [List.countP_eq_zero]
        intro j hj
        have := List.mem_range.mp hj
        simp only [decide_eq_true_eq]
        omega
      simp [this]
    · have hv' : v < n := by omega
      have h0 : ([n].countP (fun j => decide (j = v))) = 0 := by
        rw [List.countP_eq_zero]
        intro j hj
        simp only [List.mem_singleton] at hj
        subst hj
        simp only [decide_eq_true_eq]
        omega
      rw [ih hv', h0]

/-- Every byte below `totalSize` is covered by exactly one chunk:
the split is disjoint and covers `[0, N-1]`. -/
theorem splitChunks_cover (N T : Nat) (hN : 1 ≤ N) (hT : 1 ≤ T) :
    ∀ b, b < N →
      (splitChunks N T).countP (fun c => decide (c.start ≤ b ∧ b ≤ c.stop)) = 1 := by
  intro b hb
  have hcs : 1 ≤ ceilDiv N T := ceilDiv_pos hN hT
  rw [splitChunks_eq_filter_map N T hN, List.countP_map, List.countP_filter]
  obtain ⟨q, hq⟩ : ∃ q, b / ceilDiv N T = q := ⟨_, rfl⟩
  have hdm := Nat.div_add_mod b (ceilDiv N T)
  have hmod := Nat.mod_lt b (by omega : 0 < ceilDiv N T)
  rw [hq] at hdm
  have hcomm : ∀ j : Nat, j * ceilDiv N T = ceilDiv N T * j := fun j => Nat.mul_comm _ _
  have hcongr : ∀ j ∈ List.range T,
      (((fun c => decide (c.start ≤ b ∧ b ≤ c.stop)) ∘ mkChunk (ceilDiv N T) N) j &&
        decide (j * ceilDiv N T + 1 ≤ N)) = true ↔ (decide (j = q)) = true := by
    intro j _
    simp only [Function.comp_apply, mkChunk, Bool.and_eq_true, decide_eq_true_eq,
      le_min_iff]
    have h2 : (j + 1) * ceilDiv N T = j * ceilDiv N T + ceilDiv N T := by ring
    constructor
    · rintro ⟨⟨hjb, hbs, hbN⟩, hjN⟩
      have h1 := hcomm j
      have : b / ceilDiv N T = j := Nat.div_eq_of_lt_le (by omega) (by omega)
      omega
    · rintro rfl
      have h1 := hcomm j
      exact ⟨⟨by omega, by omega, by omega⟩, by omega⟩
  rw [List.countP_congr hcongr]
  refine countP_range_eq_one T q ?_
  have hNT : N ≤ T * ceilDiv N T := le_mul_ceilDiv hT
  have : b < T * ceilDiv N T := by omega
  have := (Nat.div_lt_iff_lt_mul (by omega : 0 < ceilDiv N T)).mpr this
  omega

/-- C7: with total size `N ≥ 1`, thread count `T ≥ 1` and chunk size
`ceil(N/T)`, `splitChunks` produces, in ascending index order starting at
0, exactly the chunks whose start `i*ceil(N/T)` does not exceed `N-1`,
chunk `i` covering the inclusive byte range
`[i*ceil(N/T), min((i+1)*ceil(N/T) - 1, N-1)]`; consecutive chunks are
contiguous, and the ranges are pairwise disjoint and together cover
exactly `[0, N-1]`. -/
theorem splitChunks_correct (N T : Nat) (hN : 1 ≤ N) (hT : 1 ≤ T) :
    splitChunks N T =
      ((List.range T).filter (fun j => decide (j * ceilDiv N T + 1 ≤ N))).map
        (fun i => ⟨i, i * ceilDiv N T, min ((i + 1) * ceilDiv N T - 1) (N - 1)⟩) ∧
    List.Chain' (fun c d => d.start = c.stop + 1) (splitChunks N T) ∧
    (∀ b, b < N →
      (splitChunks N T).countP (fun c => decide (c.start ≤ b ∧ b ≤ c.stop)) = 1) ∧
    (∀ c ∈ splitChunks N T, c.start ≤ c.stop ∧ c.stop < N) := by
  have hcs : 1 ≤ ceilDiv N T := ceilDiv_pos hN hT
  refine ⟨?_, splitChunks_chain N T hN hT, splitChunks_cover N T hN hT, ?_⟩
  · rw [splitChunks_eq_filter_map N T hN]
    refine List.map_congr_left ?_
    intro j _
    have h2 : (j + 1) * ceilDiv N T = j * ceilDiv N T + ceilDiv N T := by ring
    simp only [mkChunk, ChunkRange.mk.injEq]
    refine ⟨trivial, trivial, ?_⟩
    omega
  · intro c hc
    rw [splitChunks_eq_filter_map N T hN] at hc
    obtain ⟨j, hj, rfl⟩ := List.mem_map.mp hc
    have hjf := (List.mem_filter.mp hj).2
    simp only [decide_eq_true_eq] at hjf
    simp only [mkChunk]
    omega

/-- Witness for C7 at a concrete input (`N = 10`, `T = 4`, chunk size 3):
byte 9 lies in exactly one chunk. -/
theorem splitChunks_correct_witness :
    (splitChunks 10 4).countP (fun c => decide (c.start ≤ 9 ∧ 9 ≤ c.stop)) = 1 :=
  (splitChunks_correct 10 4 (by decide) (by decide)).2.2.1 9 (by decide)

/-! ## Per-chunk retry loop (`downloadChunk`, chunkedDownloader.ts 92-166) -/

/-- `CHUNK_RETRY_COUNT` (config.ts line 44). -/
def CHUNK_RETRY_COUNT : Nat := 3

/-- `CHUNK_RETRY_DELAY_MS` (config.ts line 45). -/
def CHUNK_RETRY_DELAY_MS : Nat := 2000

/-- Outcome of one `fetch`+stream attempt for a chunk: success, or a
thrown error carrying its JavaScript `name` property. -/
inductive FetchOutcome
  | ok
  | err (name : String)
deriving DecidableEq

/-- Externally visible actions of the retry loop: a fetch attempt with
its attempt number, or a `setTimeout` delay of the given milliseconds. -/
inductive ChunkEvent
  | fetchAttempt (attempt : Nat)
  | sleep (ms : Nat)
deriving DecidableEq

/-- How `downloadChunk` finishes: success; the synthetic
`new Error("Aborted")` thrown when `this.aborted` is seen at the top of
the loop; or a fetch error propagated to the caller. -/
inductive ChunkResult
  | success
  | abortedFlag
  | errPropagated (name : String)
deriving DecidableEq

/-- A run of the retry loop: its event trace and its result. -/
structure ChunkRun where
  events : List ChunkEvent
  result : ChunkResult
deriving DecidableEq

/-- Retry loop of `downloadChunk` (chunkedDownloader.ts lines 100-165).
`fuel` is the number of attempts left, `a` the attempt counter;
`aborted a` is the `this.aborted` flag observed at the top of attempt
`a`, `abortedC a` the flag observed in attempt `a`'s catch block, and
`outcome a` the result of attempt `a`'s fetch/stream. A failed attempt
rethrows immediately on `AbortError`/aborted flag, and otherwise delays
`CHUNK_RETRY_DELAY_MS` only when `attempt < CHUNK_RETRY_COUNT - 1`
(i.e. more fuel remains). -/
def downloadChunkGo (aborted abortedC : Nat → Bool) (outcome : Nat → FetchOutcome)
    (idx : Nat) : Nat → Nat → Option String → ChunkRun
  | 0, _, lastErr =>
    ⟨[], .errPropagated (lastErr.getD ("Chunk " ++ toString idx ++ " failed after retries"))⟩
  | fuel + 1, a, _ =>
    if aborted a then ⟨[], .abortedFlag⟩
    else
      match outcome a with
      | .ok => ⟨[.fetchAttempt a], .success⟩
      | .err name =>
        if name = "AbortError" ∨ abortedC a = true then
          ⟨[.fetchAttempt a], .errPropagated name⟩
        else if fuel = 0 then
          let rest := downloadChunkGo aborted abortedC outcome idx fuel (a + 1) (some name)
          ⟨.fetchAttempt a :: rest.events, rest.result⟩
        else
          let rest := downloadChunkGo aborted abortedC outcome idx fuel (a + 1) (some name)
          ⟨.fetchAttempt a :: .sleep CHUNK_RETRY_DELAY_MS :: rest.events, rest.result⟩

/-- `downloadChunk` (chunkedDownloader.ts lines 92-166): the loop runs
`CHUNK_RETRY_COUNT` attempts starting at attempt 0 with no prior error. -/
def downloadChunk (aborted abortedC : Nat → Bool) (outcome : Nat → FetchOutcome)
    (idx : Nat) : ChunkRun :=
  downloadChunkGo aborted abortedC outcome idx CHUNK_RETRY_COUNT 0 none

def isFetchEv : ChunkEvent → Bool
  | .fetchAttempt _ => true
  | .sleep _ => false

def isSleepEv : ChunkEvent → Bool
  | .fetchAttempt _ => false
  | .sleep _ => true

def countFetch (l : List ChunkEvent) : Nat := l.countP isFetchEv

def countSleep (l : List ChunkEvent) : Nat := l.countP isSleepEv

/-- Sleeps may appear only directly after a fetch attempt (never first,
never twice in a row): delays sit between consecutive attempts. -/
def sleepsAfterFetch : Bool → List ChunkEvent → Bool
  | _, [] => true
  | _, .fetchAttempt _ :: rest => sleepsAfterFetch true rest
  | allowed, .sleep _ :: rest => allowed && sleepsAfterFetch false rest

theorem downloadChunkGo_countFetch_le (ab abC : Nat → Bool) (oc : Nat → FetchOutcome)
    (idx : Nat) : ∀ fuel a last,
    countFetch (downloadChunkGo ab abC oc idx fuel a last).events ≤ fuel := by
  intro fuel
  induction fuel with
  | zero => intro a last; simp [downloadChunkGo, countFetch]
  | succ fuel ih =>
    intro a last
    rw [downloadChunkGo]
    by_cases hab : ab a = true
    · rw [if_pos hab]; simp [countFetch]
    · rw [if_neg hab]
      cases hoc : oc a with
      | ok => simp [countFetch, isFetchEv]
      | err name =>
        dsimp only
        by_cases habort : name = "AbortError" ∨ abC a = true
        · rw [if_pos habort]; simp [countFetch, isFetchEv]
        · rw [if_neg habort]
          have hrec := ih (a + 1) (some name)
          by_cases hf : fuel = 0
          · rw [if_pos hf]
            simp [countFetch, List.countP_cons, isFetchEv] at hrec ⊢
            omega
          · rw [if_neg hf]
            simp [countFetch, List.countP_cons, isFetchEv] at hrec ⊢
            omega

theorem downloadChunkGo_sleep_ms (ab abC : Nat → Bool) (oc : Nat → FetchOutcome)
    (idx : Nat) : ∀ fuel a last ms,
    ChunkEvent.sleep ms ∈ (downloadChunkGo ab abC oc idx fuel a last).events →
      ms = CHUNK_RETRY_DELAY_MS := by
  intro fuel
  induction fuel with
  | zero => intro a last ms h; simp [downloadChunkGo] at h
  | succ fuel ih =>
    intro a last ms h
    rw [downloadChunkGo] at h
    by_cases hab : ab a = true
    · rw [if_pos hab] at h; simp at h
    · rw [if_neg hab] at h
      cases hoc : oc a with
      | ok =>
        rw [hoc] at h
        dsimp only at h
        simp at h
      | err name =>
        rw [hoc] at h
        dsimp only at h
        by_cases habort : name = "AbortError" ∨ abC a = true
        · rw [if_pos habort] at h; simp at h
        · rw [if_neg habort] at h
          by_cases hf : fuel = 0
          · rw [if_pos hf] at h
            simp only [List.mem_cons] at h
            rcases h with h | h
            · exact absurd h (by simp)
            · exact ih (a + 1) (some name) ms h
          · rw [if_neg hf] at h
            simp only [List.mem_cons] at h
            rcases h with h | h | h
            · exact absurd h (by simp)
            · simp only [ChunkEvent.sleep.injEq] at h
              exact h
            · exact ih (a + 1) (some name) ms h

theorem downloadChunkGo_fetch_order (ab abC : Nat → Bool) (oc : Nat → FetchOutcome)
    (idx : Nat) : ∀ fuel a last,
    (downloadChunkGo ab abC oc idx fuel a last).events.filter isFetchEv =
      (List.range' a
        (countFetch (downloadChunkGo ab abC oc idx fuel a last).events)).map
        ChunkEvent.fetchAttempt := by
  intro fuel
  induction fuel with
  | zero => intro a last; simp [downloadChunkGo, countFetch]
  | succ fuel ih =>
    intro a last
    rw [downloadChunkGo]
    by_cases hab : ab a = true
    · rw [if_pos hab]; simp [countFetch]
    · rw [if_neg hab]
      cases hoc : oc a with
      | ok => simp [countFetch, isFetchEv, List.countP_cons, List.range']
      | err name =>
        dsimp only
        by_cases habort : name = "AbortError" ∨ abC a = true
        · rw [if_pos habort]
          simp [countFetch, isFetchEv, List.countP_cons, List.range']
        · rw [if_neg habort]
          have hrec := ih (a + 1) (some name)
          by_cases hf : fuel = 0
          · rw [if_pos hf]
            simp [countFetch, isFetchEv, List.countP_cons, List.range'_succ,
              List.filter_cons] at hrec ⊢
            exact hrec
          · rw [if_neg hf]
            simp [countFetch, isFetchEv, List.countP_cons, List.range'_succ,
              List.filter_cons] at hrec ⊢
            exact hrec

theorem downloadChunkGo_sleeps_placed (ab abC : Nat → Bool) (oc : Nat → FetchOutcome)
    (idx : Nat) : ∀ fuel a last b,
    sleepsAfterFetch b (downloadChunkGo ab abC oc idx fuel a last).events = true := by
  intro fuel
  induction fuel with
  | zero => intro a last b; simp [downloadChunkGo, sleepsAfterFetch]
  | succ fuel ih =>
    intro a last b
    rw [downloadChunkGo]
    by_cases hab : ab a = true
    · rw [if_pos hab]; simp [sleepsAfterFetch]
    · rw [if_neg hab]
      cases hoc : oc a with
      | ok => simp [sleepsAfterFetch]
      | err name =>
        dsimp only
        by_cases habort : name = "AbortError" ∨ abC a = true
        · rw [if_pos habort]; simp [sleepsAfterFetch]
        · rw [if_neg habort]
          by_cases hf : fuel = 0
          · rw [if_pos hf]
            simp only [sleepsAfterFetch]
            exact ih (a + 1) (some name) true
          · rw [if_neg hf]
            simp only [sleepsAfterFetch, Bool.true_and]
            exact ih (a + 1) (some name) false

theorem downloadChunkGo_abort_top (ab abC : Nat → Bool) (oc : Nat → FetchOutcome)
    (idx : Nat) : ∀ fuel a last k, a ≤ k → ab k = true →
    countFetch (downloadChunkGo ab abC oc idx fuel a last).events ≤ k - a := by
  intro fuel
  induction fuel with
  | zero => intro a last k _ _; simp [downloadChunkGo, countFetch]
  | succ fuel ih =>
    intro a last k hak habk
    rw [downloadChunkGo]
    by_cases hab : ab a = true
    · rw [if_pos hab]; simp [countFetch]
    · rw [if_neg hab]
      have haltk : a < k := by
        rcases Nat.lt_or_ge a k with h | h
        · exact h
        · exfalso
          have : a = k := by omega
          rw [this] at hab
          exact hab habk
      cases hoc : oc a with
      | ok => simp [countFetch, isFetchEv, List.countP_cons]; omega
      | err name =>
        dsimp only
        by_cases habort : name = "AbortError" ∨ abC a = true
        · rw [if_pos habort]
          simp [countFetch, isFetchEv, List.countP_cons]; omega
        · rw [if_neg habort]
          have hrec := ih (a + 1) (some name) k (by omega) habk
          by_cases hf : fuel = 0
          · rw [if_pos hf]
            simp [countFetch, isFetchEv, List.countP_cons] at hrec ⊢
            omega
          · rw [if_neg hf]
            simp [countFetch, isFetchEv, List.countP_cons] at hrec ⊢
            omega

theorem downloadChunkGo_abort_catch (ab abC : Nat → Bool) (oc : Nat → FetchOutcome)
    (idx : Nat) : ∀ fuel a last k n, a ≤ k → oc k = .err n →
    (n = "AbortError" ∨ abC k = true) →
    countFetch (downloadChunkGo ab abC oc idx fuel a last).events ≤ k + 1 - a ∧
    countSleep (downloadChunkGo ab abC oc idx fuel a last).events ≤ k - a := by
  intro fuel
  induction fuel with
  | zero => intro a last k n _ _ _; simp [downloadChunkGo, countFetch, countSleep]
  | succ fuel ih =>
    intro a last k n hak hock habk
    rw [downloadChunkGo]
    by_cases hab : ab a = true
    · rw [if_pos hab]; simp [countFetch, countSleep]
    · rw [if_neg hab]
      by_cases heq : a = k
      · subst heq
        rw [hock]
        dsimp only
        rw [if_pos habk]
        simp [countFetch, countSleep, isFetchEv, isSleepEv, List.countP_cons]
      · have haltk : a < k := by omega
        cases hoc : oc a with
        | ok =>
          simp [countFetch, countSleep, isFetchEv, isSleepEv, List.countP_cons]
          omega
        | err name =>
          dsimp only
          by_cases habort : name = "AbortError" ∨ abC a = true
          · rw [if_pos habort]
            simp [countFetch, countSleep, isFetchEv, isSleepEv, List.countP_cons]
            omega
          · rw [if_neg habort]
            have hrec := ih (a + 1) (some name) k n (by omega) hock habk
            by_cases hf : fuel = 0
            · rw [if_pos hf]
              simp [countFetch, countSleep, isFetchEv, isSleepEv,
                List.countP_cons] at hrec ⊢
              omega
            · rw [if_neg hf]
              simp [countFetch, countSleep, isFetchEv, isSleepEv,
                List.countP_cons] at hrec ⊢
              omega

/-- When every attempt fails with a non-abort error and the flag is never
set, all three attempts run with the two delays between them, and the
last error propagates. -/
theorem downloadChunk_exhaust (ab abC : Nat → Bool) (oc : Nat → FetchOutcome) (idx : Nat)
    (n0 n1 n2 : String)
    (hab0 : ab 0 = false) (hab1 : ab 1 = false) (hab2 : ab 2 = false)
    (hc0 : abC 0 = false) (hc1 : abC 1 = false) (hc2 : abC 2 = false)
    (h0 : oc 0 = .err n0) (h1 : oc 1 = .err n1) (h2 : oc 2 = .err n2)
    (hn0 : n0 ≠ "AbortError") (hn1 : n1 ≠ "AbortError") (hn2 : n2 ≠ "AbortError") :
    downloadChunk ab abC oc idx =
      ⟨[.fetchAttempt 0, .sleep CHUNK_RETRY_DELAY_MS, .fetchAttempt 1,
        .sleep CHUNK_RETRY_DELAY_MS, .fetchAttempt 2], .errPropagated n2⟩ := by
  have hr1 : downloadChunkGo ab abC oc idx 1 2 (some n1) =
      ⟨[.fetchAttempt 2], .errPropagated n2⟩ := by
    rw [downloadChunkGo, if_neg (by simp [hab2]), h2]
    dsimp only
    rw [if_neg (by simp [hn2, hc2]), if_pos rfl]
    rw [downloadChunkGo]
    rfl
  have hr2 : downloadChunkGo ab abC oc idx 2 1 (some n0) =
      ⟨[.fetchAttempt 1, .sleep CHUNK_RETRY_DELAY_MS, .fetchAttempt 2],
        .errPropagated n2⟩ := by
    rw [downloadChunkGo, if_neg (by simp [hab1]), h1]
    dsimp only
    rw [if_neg (by simp [hn1, hc1]), if_neg (by omega), hr1]
  rw [downloadChunk]
  rw [show CHUNK_RETRY_COUNT = 2 + 1 from rfl]
  rw [downloadChunkGo, if_neg (by simp [hab0]), h0]
  dsimp only
  rw [if_neg (by simp [hn0, hc0]), if_neg (by omega), hr2]

/-- C8: `downloadChunk` makes at most `CHUNK_RETRY_COUNT = 3` fetch
attempts, numbered consecutively from 0; every delay is the fixed
`CHUNK_RETRY_DELAY_MS = 2000` milliseconds and sits directly after a
failed attempt (never first, never doubled); an aborted flag observed at
the top of the loop at attempt `k` prevents any fetch from attempt `k`
on; an abort-flavored fetch error at attempt `k` ends the loop with no
delay after it; and when all attempts fail with non-abort errors the
last error propagates after exactly the trace fetch 0, delay, fetch 1,
delay, fetch 2. -/
theorem downloadChunk_correct (ab abC : Nat → Bool) (oc : Nat → FetchOutcome) (idx : Nat) :
    countFetch (downloadChunk ab abC oc idx).events ≤ CHUNK_RETRY_COUNT ∧
    (∀ ms, ChunkEvent.sleep ms ∈ (downloadChunk ab abC oc idx).events →
      ms = CHUNK_RETRY_DELAY_MS) ∧
    ((downloadChunk ab abC oc idx).events.filter isFetchEv =
      (List.range (countFetch (downloadChunk ab abC oc idx).events)).map
        ChunkEvent.fetchAttempt) ∧
    sleepsAfterFetch false (downloadChunk ab abC oc idx).events = true ∧
    (∀ k, ab k = true → countFetch (downloadChunk ab abC oc idx).events ≤ k) ∧
    (∀ k n, oc k = .err n → (n = "AbortError" ∨ abC k = true) →
      countFetch (downloadChunk ab abC oc idx).events ≤ k + 1 ∧
      countSleep (downloadChunk ab abC oc idx).events ≤ k) ∧
    (∀ n0 n1 n2, ab 0 = false → ab 1 = false → ab 2 = false →
      abC 0 = false → abC 1 = false → abC 2 = false →
      oc 0 = .err n0 → oc 1 = .err n1 → oc 2 = .err n2 →
      n0 ≠ "AbortError" → n1 ≠ "AbortError" → n2 ≠ "AbortError" →
      downloadChunk ab abC oc idx =
        ⟨[.fetchAttempt 0, .sleep CHUNK_RETRY_DELAY_MS, .fetchAttempt 1,
          .sleep CHUNK_RETRY_DELAY_MS, .fetchAttempt 2], .errPropagated n2⟩) := by
  refine ⟨?_, ?_, ?_, ?_, ?_, ?_, ?_⟩
  · exact downloadChunkGo_countFetch_le ab abC oc idx CHUNK_RETRY_COUNT 0 none
  · exact fun ms h => downloadChunkGo_sleep_ms ab abC oc idx CHUNK_RETRY_COUNT 0 none ms h
  · rw [List.range_eq_range']
    exact downloadChunkGo_fetch_order ab abC oc idx CHUNK_RETRY_COUNT 0 none
  · exact downloadChunkGo_sleeps_placed ab abC oc idx CHUNK_RETRY_COUNT 0 none false
  · intro k hk
    rw [downloadChunk]
    have := downloadChunkGo_abort_top ab abC oc idx CHUNK_RETRY_COUNT 0 none k
      (Nat.zero_le k) hk
    omega
  · intro k n h1 h2
    rw [downloadChunk]
    have := downloadChunkGo_abort_catch ab abC oc idx CHUNK_RETRY_COUNT 0 none k n
      (Nat.zero_le k) h1 h2
    omega
  · intro n0 n1 n2 a0 a1 a2 c0 c1 c2 o0 o1 o2 m0 m1 m2
    exact downloadChunk_exhaust ab abC oc idx n0 n1 n2 a0 a1 a2 c0 c1 c2 o0 o1 o2 m0 m1 m2

/-- Witness for C8: with no aborts and every fetch failing with a
`"TypeError"`, the loop performs exactly 3 attempts separated by the two
fixed 2-second delays and propagates the last error. -/
theorem downloadChunk_correct_witness :
    downloadChunk (fun _ => false) (fun _ => false) (fun _ => .err "TypeError") 0 =
      ⟨[.fetchAttempt 0, .sleep CHUNK_RETRY_DELAY_MS, .fetchAttempt 1,
        .sleep CHUNK_RETRY_DELAY_MS, .fetchAttempt 2], .errPropagated "TypeError"⟩ :=
  (downloadChunk_correct (fun _ => false) (fun _ => false)
      (fun _ => .err "TypeError") 0).2.2.2.2.2.2
    "TypeError" "TypeError" "TypeError" rfl rfl rfl rfl rfl rfl rfl rfl rfl
    (by decide) (by decide) (by decide)

/-! ## Task data model (types/index.ts; downloadManager.ts) -/

/-- The six task states of the download manager. -/
inductive TaskStatus
  | pending
  | downloading
  | injecting
  | paused
  | completed
  | failed
deriving DecidableEq

structure Software where
  name : String
  bundleID : String
  version : String
deriving DecidableEq

/-- A signature blob: opaque base64 `sinf` bytes plus its pairing index. -/
structure Sinf where
  idx : Nat
  sinf : String
deriving DecidableEq

/-- `DownloadTask`. Paths are segment lists of absolute paths; absent
optional fields are `none`; `error` is `none` when unset. -/
structure DownloadTask where
  id : String
  software : Software
  accountHash : String
  downloadURL : String
  sinfs : List Sinf
  iTunesMetadata : Option String
  status : TaskStatus
  progress : Nat
  speed : String
  filePath : Option (List String)
  error : Option String
  createdAt : String
deriving DecidableEq

/-! ## Destination path containment (`startDownload`, downloadManager.ts 436-462) -/

/-- One step of POSIX path normalization: empty and `.` segments are
dropped, `..` removes the previously kept segment (saturating at the
root), anything else is kept. -/
def normStep (acc : List String) (s : String) : List String :=
  if s = "" ∨ s = "." then acc
  else if s = ".." then acc.dropLast
  else acc ++ [s]

/-- `path.resolve` of an absolute path given by its segments. -/
def normalizePath (p : List String) : List String := p.foldl normStep []

/-- `resolvedDir.startsWith(packagesBase + path.sep)`
(downloadManager.ts line 451) at segment granularity: the resolved base
is a proper prefix of the resolved directory. -/
def destDirCheck (packagesBase resolvedDir : List String) : Bool :=
  packagesBase.isPrefixOf resolvedDir &&
    decide (packagesBase.length < resolvedDir.length)

/-- Lines 448-462 of downloadManager.ts, for a computed destination
directory `dir`: on check failure the task fails with `Invalid path` and
`filePath` is not assigned; on success `filePath := <dir>/<id>.ipa`. -/
def applyDestDirGuard (base dir : List String) (t : DownloadTask) : DownloadTask :=
  if ¬ destDirCheck (normalizePath base) (normalizePath dir) then
    { t with status := .failed, error := some "Invalid path" }
  else
    { t with filePath := some (dir ++ [t.id ++ ".ipa"]) }

/-- Lines 436-462: sanitize the three identifiers, compose
`<base>/<acct>/<bundle>/<version>`, and run the containment guard. The
sanitizers sit outside the `try` block, so a sanitizer exception escapes
`startDownload` without touching the task: modelled by returning `t`
unchanged. -/
def startDownloadPathCheck (base : List String) (t : DownloadTask) : DownloadTask :=
  match safePathSegment t.accountHash "accountHash",
        safePathSegment t.software.bundleID "bundleID",
        safePathSegment t.software.version "version" with
  | .ok a, .ok b, .ok c => applyDestDirGuard base (base ++ [a, b, c]) t
  | _, _, _ => t

/-- Folding safe segments (no empty, no `.`, no `..`) onto any
accumulator just appends them. -/
theorem foldl_normStep_safe :
    ∀ (segs : List String) (acc : List String),
      (∀ s ∈ segs, s ≠ "" ∧ s ≠ "." ∧ s ≠ "..") →
      segs.foldl normStep acc = acc ++ segs := by
  intro segs
  induction segs with
  | nil => intro acc _; simp
  | cons s rest ih =>
    intro acc hsafe
    have hs := hsafe s (by simp)
    have hrest : ∀ x ∈ rest, x ≠ "" ∧ x ≠ "." ∧ x ≠ ".." := by
      intro x hx; exact hsafe x (by simp [hx])
    rw [List.foldl_cons]
    rw [show normStep acc s = acc ++ [s] by
      rw [normStep, if_neg (by tauto), if_neg hs.2.2]]
    rw [ih (acc ++ [s]) hrest]
    simp

/-- Resolving a path extended by safe segments appends them to the
resolved path. -/
theorem normalizePath_append_safe (p segs : List String)
    (h : ∀ s ∈ segs, s ≠ "" ∧ s ≠ "." ∧ s ≠ "..") :
    normalizePath (p ++ segs) = normalizePath p ++ segs := by
  rw [normalizePath, List.foldl_append, foldl_normStep_safe segs _ h]
  rfl

/-- `<id>.ipa` is never empty, `.` or `..`. -/
theorem ipaName_safe (s : String) :
    s ++ ".ipa" ≠ "" ∧ s ++ ".ipa" ≠ "." ∧ s ++ ".ipa" ≠ ".." := by
  have h4 : (".ipa" : String).length = 4 := by decide
  have h0 : ("" : String).length = 0 := by decide
  have h1 : ("." : String).length = 1 := by decide
  have h2 : (".." : String).length = 2 := by decide
  have hlen : (s ++ ".ipa").length = s.length + 4 := by
    rw [String.length_append, h4]
  refine ⟨fun h => ?_, fun h => ?_, fun h => ?_⟩
  · rw [h, h0] at hlen; omega
  · rw [h, h1] at hlen; omega
  · rw [h, h2] at hlen; omega

/-- C2: a `filePath` assigned by the destination step of `startDownload`
resolves strictly beneath the resolved packages base (the resolved base
is a proper prefix of the resolved file path), and with sanitized
segments the containment check always passes; whenever a computed
destination directory fails the check instead, the task transitions to
`failed` with error `Invalid path` and `filePath` is not assigned. -/
theorem startDownloadPath_correct (base dir : List String) (t : DownloadTask) :
    (∀ a b c,
      safePathSegment t.accountHash "accountHash" = .ok a →
      safePathSegment t.software.bundleID "bundleID" = .ok b →
      safePathSegment t.software.version "version" = .ok c →
      destDirCheck (normalizePath base) (normalizePath (base ++ [a, b, c])) = true ∧
      startDownloadPathCheck base t =
        { t with filePath := some (base ++ [a, b, c] ++ [t.id ++ ".ipa"]) } ∧
      (normalizePath base).isPrefixOf
        (normalizePath (base ++ [a, b, c] ++ [t.id ++ ".ipa"])) = true ∧
      (normalizePath base).length <
        (normalizePath (base ++ [a, b, c] ++ [t.id ++ ".ipa"])).length) ∧
    (destDirCheck (normalizePath base) (normalizePath dir) = false →
      applyDestDirGuard base dir t =
        { t with status := .failed, error := some "Invalid path" } ∧
      (applyDestDirGuard base dir t).filePath = t.filePath) := by
  constructor
  · intro a b c ha hb hc
    have hsa := safePathSegment_ok_safe _ _ _ ha
    have hsb := safePathSegment_ok_safe _ _ _ hb
    have hsc := safePathSegment_ok_safe _ _ _ hc
    have hsegs : ∀ s ∈ [a, b, c], s ≠ "" ∧ s ≠ "." ∧ s ≠ ".." := by
      intro s hs
      simp only [List.mem_cons, List.not_mem_nil, or_false] at hs
      rcases hs with rfl | rfl | rfl
      · exact ⟨hsa.1, hsa.2.2.1, hsa.2.2.2⟩
      · exact ⟨hsb.1, hsb.2.2.1, hsb.2.2.2⟩
      · exact ⟨hsc.1, hsc.2.2.1, hsc.2.2.2⟩
    have hsegs4 : ∀ s ∈ [a, b, c, t.id ++ ".ipa"], s ≠ "" ∧ s ≠ "." ∧ s ≠ ".." := by
      intro s hs
      simp only [List.mem_cons, List.not_mem_nil, or_false] at hs
      rcases hs with rfl | rfl | rfl | rfl
      · exact ⟨hsa.1, hsa.2.2.1, hsa.2.2.2⟩
      · exact ⟨hsb.1, hsb.2.2.1, hsb.2.2.2⟩
      · exact ⟨hsc.1, hsc.2.2.1, hsc.2.2.2⟩
      · exact ipaName_safe t.id
    have hnorm3 : normalizePath (base ++ [a, b, c]) = normalizePath base ++ [a, b, c] :=
      normalizePath_append_safe base [a, b, c] hsegs
    have hnorm4 : normalizePath (base ++ [a, b, c] ++ [t.id ++ ".ipa"]) =
        normalizePath base ++ [a, b, c, t.id ++ ".ipa"] := by
      have hfl : base ++ [a, b, c] ++ [t.id ++ ".ipa"] =
          base ++ [a, b, c, t.id ++ ".ipa"] := by simp
      rw [hfl, normalizePath_append_safe base [a, b, c, t.id ++ ".ipa"] hsegs4]
    have hcheck : destDirCheck (normalizePath base)
        (normalizePath (base ++ [a, b, c])) = true := by
      rw [hnorm3, destDirCheck, Bool.and_eq_true]
      constructor
      · rw [List.isPrefixOf_iff_prefix]
        exact List.prefix_append _ _
      · simp
    refine ⟨hcheck, ?_, ?_, ?_⟩
    · unfold startDownloadPathCheck
      rw [ha, hb, hc]
      dsimp only
      unfold applyDestDirGuard
      rw [if_neg (by rw [hcheck]; exact fun hf => hf rfl)]
    · rw [hnorm4, List.isPrefixOf_iff_prefix]
      exact List.prefix_append _ _
    · rw [hnorm4]
      simp
  · intro hfail
    unfold applyDestDirGuard
    rw [if_pos (by rw [hfail]; exact Bool.false_ne_true)]
    exact ⟨rfl, rfl⟩

/-- A concrete task shared by witnesses below. -/
def witnessTask : DownloadTask :=
  { id := "t1",
    software := { name := "X", bundleID := "com.x.app", version := "1.0" },
    accountHash := "acct1",
    downloadURL := "https://iosapps.itunes.apple.com/x.ipa",
    sinfs := [], iTunesMetadata := none, status := .pending, progress := 0,
    speed := "0 B/s", filePath := none, error := none,
    createdAt := "2026-01-01T00:00:00Z" }

/-- Witness for C2 at concrete inputs: a task with sanitizable fields
gets its `filePath` assigned beneath the packages base, and the guard
run against the base directory itself (not strictly below it) fails the
task with `Invalid path`. -/
theorem startDownloadPath_correct_witness :
    (destDirCheck (normalizePath ["data", "packages"])
        (normalizePath (["data", "packages"] ++ ["acct1", "com.x.app", "1.0"])) = true ∧
      startDownloadPathCheck ["data", "packages"] witnessTask =
        { witnessTask with
          filePath := some (["data", "packages"] ++ ["acct1", "com.x.app", "1.0"] ++ ["t1.ipa"]) } ∧
      (normalizePath ["data", "packages"]).isPrefixOf
        (normalizePath (["data", "packages"] ++ ["acct1", "com.x.app", "1.0"] ++ ["t1.ipa"])) = true ∧
      (normalizePath ["data", "packages"]).length <
        (normalizePath (["data", "packages"] ++ ["acct1", "com.x.app", "1.0"] ++ ["t1.ipa"])).length) ∧
    (applyDestDirGuard ["data", "packages"] ["data", "packages"] witnessTask =
        { witnessTask with status := .failed, error := some "Invalid path" } ∧
      (applyDestDirGuard ["data", "packages"] ["data", "packages"] witnessTask).filePath =
        witnessTask.filePath) :=
  ⟨(startDownloadPath_correct ["data", "packages"] ["data", "packages"] witnessTask).1
      "acct1" "com.x.app" "1.0" (by rfl) (by rfl) (by rfl),
    (startDownloadPath_correct ["data", "packages"] ["data", "packages"] witnessTask).2
      (by rfl)⟩

/-! ## Persistence snapshot (`persistTasks`, downloadManager.ts 77-93) -/

/-- JavaScript truthiness of the `filePath` field (a string in the
source: `undefined` and `""` are falsy; the empty segment list plays the
role of `""`). -/
def filePathTruthy : Option (List String) → Bool
  | none => false
  | some p => !p.isEmpty

/-- The projection written for each persisted task
(downloadManager.ts lines 80-91). -/
structure PersistedTask where
  id : String
  software : Software
  accountHash : String
  downloadURL : String
  sinfs : List Sinf
  status : TaskStatus
  progress : Nat
  speed : String
  filePath : Option (List String)
  createdAt : String
deriving DecidableEq

def persistProjection (t : DownloadTask) : PersistedTask :=
  { id := t.id, software := t.software, accountHash := t.accountHash,
    downloadURL := "", sinfs := [], status := t.status,
    progress := t.progress, speed := t.speed, filePath := t.filePath,
    createdAt := t.createdAt }

/-- `persistTasks` (downloadManager.ts lines 77-93): the array written
to `tasks.json` from the current task-map values. The filter is
`t.status === "completed" && t.filePath`; file existence on disk is not
consulted. -/
def persistTasks (tasks : List DownloadTask) : List PersistedTask :=
  (tasks.filter
    (fun t => decide (t.status = .completed) && filePathTruthy t.filePath)).map
    persistProjection

/-- The snapshot contents as claim C3 words them, for comparison with
`persistTasks`: only completed tasks whose `filePath` exists on disk at
write time, `fileExists` being the disk state. -/
def persistTasksClaimed (fileExists : List String → Bool)
    (tasks : List DownloadTask) : List PersistedTask :=
  (tasks.filter (fun t => decide (t.status = .completed) &&
    (match t.filePath with
     | some p => fileExists p
     | none => false))).map persistProjection

/-- A completed task whose file has vanished from disk. -/
def ghostTask : DownloadTask :=
  { witnessTask with
    status := .completed, progress := 100, downloadURL := "", sinfs := [],
    filePath := some ["data", "packages", "acct1", "com.x.app", "1.0", "t1.ipa"] }

/-- Counterexample to C3: with `ghostTask`'s file absent from disk
(`fileExists` constantly false), the snapshot the code writes still
contains the task, while the snapshot the claim describes does not. -/
theorem persistTasks_claim_counterexample :
    persistTasks [ghostTask] = [persistProjection ghostTask] ∧
    persistTasksClaimed (fun _ => false) [ghostTask] = [] ∧
    persistTasks [ghostTask] ≠ persistTasksClaimed (fun _ => false) [ghostTask] := by
  refine ⟨by rfl, by rfl, by decide⟩

/-- C3 (amended): an entry is in the written snapshot exactly when some
task in the map is `completed` with a set, non-empty `filePath` and
projects to it — existence of the file on disk is not checked at write
time (it is only enforced when the snapshot is loaded at startup) — and
every written entry has `downloadURL = ""` and `sinfs = []`. -/
theorem persistTasks_amended (tasks : List DownloadTask) :
    (∀ p, p ∈ persistTasks tasks ↔
      ∃ t ∈ tasks, t.status = .completed ∧ filePathTruthy t.filePath = true ∧
        p = persistProjection t) ∧
    (∀ p ∈ persistTasks tasks, p.downloadURL = "" ∧ p.sinfs = []) := by
  constructor
  · intro p
    unfold persistTasks
    rw [List.mem_map]
    constructor
    · rintro ⟨t, ht, rfl⟩
      have hm := List.mem_filter.mp ht
      have h2 := hm.2
      simp only [Bool.and_eq_true, decide_eq_true_eq] at h2
      exact ⟨t, hm.1, h2.1, h2.2, rfl⟩
    · rintro ⟨t, ht, h1, h2, rfl⟩
      exact ⟨t, List.mem_filter.mpr ⟨ht, by simp [h1, h2]⟩, rfl⟩
  · intro p hp
    obtain ⟨t, _, rfl⟩ := List.mem_map.mp hp
    exact ⟨rfl, rfl⟩

/-- Witness for the amended C3 at a concrete input: `ghostTask`'s
projection is written. -/
theorem persistTasks_amended_witness :
    persistProjection ghostTask ∈ persistTasks [ghostTask] :=
  ((persistTasks_amended [ghostTask]).1 (persistProjection ghostTask)).mpr
    ⟨ghostTask, by simp, by rfl, by rfl, rfl⟩

/-! ## Manager state and lifecycle operations (downloadManager.ts 9-12, 185-527) -/

/-- The manager's mutable state: the task map (association by `id`, in
insertion order) and the two auxiliary indices — the ids having a
registered `AbortController` resp. `ChunkedDownloader`. -/
structure MgrState where
  tasks : List DownloadTask
  abortControllers : List String
  chunkDownloaders : List String
deriving DecidableEq

/-- `tasks.get(id)`. -/
def findTask (s : MgrState) (id : String) : Option DownloadTask :=
  s.tasks.find? (fun t => t.id == id)

/-- In-place mutation of the task with the given id. -/
def updateTask (s : MgrState) (id : String) (f : DownloadTask → DownloadTask) : MgrState :=
  { s with tasks := s.tasks.map (fun t => if t.id == id then f t else t) }

/-- Abort and drop both index entries for `id` (the common prelude of
`pauseTask`, `deleteTask` and the post-download/catch cleanup). -/
def removeIndices (s : MgrState) (id : String) : MgrState :=
  { s with abortControllers := s.abortControllers.erase id,
           chunkDownloaders := s.chunkDownloaders.erase id }

/-- `map.set(id, _)` semantics on an index list. -/
def setIndex (l : List String) (id : String) : List String :=
  if l.contains id then l else l ++ [id]

/-- `pauseTask(id)` (downloadManager.ts lines 358-376). -/
def pauseTask (s : MgrState) (id : String) : Bool × MgrState :=
  match findTask s id with
  | none => (false, s)
  | some t =>
    if t.status ≠ .downloading then (false, s)
    else
      (true, updateTask (removeIndices s id) id (fun u => { u with status := .paused }))

/-- `resumeTask(id)` (lines 378-384). On success `startDownload` is
re-entered; its state effects are the separate `startBegin`, path and
completion/error operations below. -/
def resumeTask (s : MgrState) (id : String) : Bool × MgrState :=
  match findTask s id with
  | none => (false, s)
  | some t =>
    if t.status ≠ .paused then (false, s) else (true, s)

/-- `deleteTask(id)` (lines 312-356). Returns the result flag, the new
state, and the unlinked file path if any; `disk` is the set of existing
files and `base` the packages directory. The empty-parent-directory walk
(lines 338-348) removes directories only, never files, and is not
modelled. -/
def deleteTask (base : List String) (disk : List String → Bool)
    (s : MgrState) (id : String) : Bool × MgrState × Option (List String) :=
  match findTask s id with
  | none => (false, s, none)
  | some t =>
    let s1 := removeIndices s id
    let unlinked :=
      match t.filePath with
      | some p =>
        if destDirCheck (normalizePath base) (normalizePath p) &&
            disk (normalizePath p) then
          some (normalizePath p)
        else none
      | none => none
    (true, { s1 with tasks := s1.tasks.filter (fun u => !(u.id == id)) }, unlinked)

/-- `createTask` (lines 386-417): validate the URL (over its parse
result) and the three path segments, then insert a fresh `pending` task;
on any validation failure the exception propagates and the state is
unchanged. The follow-on `startDownload` effects are separate
operations. -/
def createTask (s : MgrState) (software : Software)
    (accountHash downloadURLStr : String) (parsedURL : Option URLParts)
    (sinfs : List Sinf) (iTunesMetadata : Option String)
    (newId createdAt : String) : MgrState :=
  match validateDownloadURL parsedURL,
        safePathSegment accountHash "accountHash",
        safePathSegment software.bundleID "bundleID",
        safePathSegment software.version "version" with
  | .ok _, .ok _, .ok _, .ok _ =>
    { s with tasks := s.tasks ++
      [{ id := newId, software := software, accountHash := accountHash,
         downloadURL := downloadURLStr, sinfs := sinfs,
         iTunesMetadata := iTunesMetadata, status := .pending, progress := 0,
         speed := "0 B/s", filePath := none, error := none,
         createdAt := createdAt }] }
  | _, _, _, _ => s

/-- Synchronous opening of `startDownload` (lines 419-434): register a
fresh `AbortController` and reset the task to `downloading`. -/
def startBegin (s : MgrState) (id : String) : MgrState :=
  updateTask { s with abortControllers := setIndex s.abortControllers id } id
    (fun t => { t with
      status := .downloading, progress := 0, speed := "0 B/s", error := none })

/-- The destination-path segment of `startDownload` (lines 436-462),
applied to the task in the map. -/
def startPath (base : List String) (s : MgrState) (id : String) : MgrState :=
  updateTask s id (startDownloadPathCheck base)

/-- The `onProgress` callback (lines 469-475). -/
def progressUpdate (s : MgrState) (id : String) (progress : Nat) (speed : String) :
    MgrState :=
  updateTask s id (fun t => { t with progress := progress, speed := speed })

/-- Lines 486-490: when signature blobs are present, mark the task
`injecting` at full progress before invoking the injector. -/
def injectingMark (s : MgrState) (id : String) : MgrState :=
  updateTask s id (fun t =>
    if t.sinfs ≠ [] then { t with status := .injecting, progress := 100 } else t)

/-- Completion block of `startDownload` (lines 494-504): a single
synchronous region with no interleaving point, so the transition to
`completed` and the secret scrub are one atomic step; `persistTasks`
then writes the snapshot (no manager-state change). -/
def completeStep (s : MgrState) (id : String) : MgrState :=
  updateTask s id (fun t =>
    { t with
      status := .completed, progress := 100, downloadURL := "", sinfs := [],
      iTunesMetadata := none })

/-- Catch block of `startDownload` (lines 505-526): clear both indices;
on `AbortError` return silently when the status was set to `paused`
externally, else fail with `Download timed out`; on any other error fail
with `Download failed`. -/
def startDownloadCatch (s : MgrState) (id errName : String) : MgrState :=
  let s1 := removeIndices s id
  if errName = "AbortError" then
    match findTask s1 id with
    | some t =>
      if t.status = .paused then s1
      else updateTask s1 id (fun u =>
        { u with status := .failed, error := some "Download timed out" })
    | none => s1
  else
    updateTask s1 id (fun u =>
      { u with status := .failed, error := some "Download failed" })

/-! ## Startup restoration (`initOnStartup`, downloadManager.ts 185-234) -/

/-- One element of the persisted `tasks.json` array as read at startup,
together with whether its `filePath` existed on disk at that time. -/
structure RestoreItem where
  id : String
  software : Software
  accountHash : String
  statusField : String
  filePath : Option (List String)
  fileExists : Bool
  createdAt : String

/-- The admission test of lines 201-206: truthy `id`, status
`"completed"`, truthy `filePath`, and the file exists. -/
def restoreAdmissible (it : RestoreItem) : Bool :=
  decide (it.id ≠ "") && decide (it.statusField = "completed") &&
    filePathTruthy it.filePath && it.fileExists

/-- The task object built for an admitted item (lines 207-218): secrets
blank, status `completed`, progress 100. -/
def restoreTask (it : RestoreItem) : DownloadTask :=
  { id := it.id, software := it.software, accountHash := it.accountHash,
    downloadURL := "", sinfs := [], iTunesMetadata := none,
    status := .completed, progress := 100, speed := "0 B/s",
    filePath := it.filePath, error := none, createdAt := it.createdAt }

/-- `tasks.set(t.id, t)`: replace in place or append. -/
def setTask (s : MgrState) (t : DownloadTask) : MgrState :=
  if s.tasks.any (fun u => u.id == t.id) then updateTask s t.id (fun _ => t)
  else { s with tasks := s.tasks ++ [t] }

/-- `initOnStartup`'s task restoration (lines 195-226) from the empty
state. -/
def initOnStartupState (items : List RestoreItem) : MgrState :=
  (items.filter restoreAdmissible).foldl (fun s it => setTask s (restoreTask it))
    ⟨[], [], []⟩

/-! ## The manager as a transition system -/

/-- One observable atomic operation on the manager state: a public entry
point, or one await-separated synchronous segment of `startDownload`. -/
inductive MgrOp
  | create (software : Software) (accountHash downloadURLStr : String)
      (parsedURL : Option URLParts) (sinfs : List Sinf)
      (iTunesMetadata : Option String) (newId createdAt : String)
  | startBegin (id : String)
  | startPath (base : List String) (id : String)
  | registerDownloader (id : String)
  | progressUpdate (id : String) (progress : Nat) (speed : String)
  | downloadOkCleanup (id : String)
  | injectingMark (id : String)
  | complete (id : String)
  | errCatch (id errName : String)
  | pause (id : String)
  | resume (id : String)
  | deleteT (base : List String) (disk : List String → Bool) (id : String)

/-- Apply one operation to the manager state. -/
def applyOp (s : MgrState) : MgrOp → MgrState
  | .create sw acct url pu sf meta nid ca => createTask s sw acct url pu sf meta nid ca
  | .startBegin id => startBegin s id
  | .startPath base id => startPath base s id
  | .registerDownloader id =>
      { s with chunkDownloaders := setIndex s.chunkDownloaders id }
  | .progressUpdate id p sp => progressUpdate s id p sp
  | .downloadOkCleanup id => removeIndices s id
  | .injectingMark id => injectingMark s id
  | .complete id => completeStep s id
  | .errCatch id n => startDownloadCatch s id n
  | .pause id => (pauseTask s id).2
  | .resume id => (resumeTask s id).2
  | .deleteT base disk id => (deleteTask base disk s id).2.1

/-! ## C1: completed tasks never carry secrets -/

/-- No secrets on a completed task: empty `downloadURL`, no `sinfs`,
no `iTunesMetadata`. -/
def secretsCleared (t : DownloadTask) : Prop :=
  t.status = .completed →
    t.downloadURL = "" ∧ t.sinfs = [] ∧ t.iTunesMetadata = none

/-- The C1 invariant over the manager state. -/
def invSecrets (s : MgrState) : Prop := ∀ t ∈ s.tasks, secretsCleared t

theorem invSecrets_updateTask (s : MgrState) (id : String)
    (f : DownloadTask → DownloadTask) (h : invSecrets s)
    (hf : ∀ t ∈ s.tasks, secretsCleared t → secretsCleared (f t)) :
    invSecrets (updateTask s id f) := by
  intro t' ht'
  unfold updateTask at ht'
  simp only at ht'
  obtain ⟨t, ht, rfl⟩ := List.mem_map.mp ht'
  by_cases hid : (t.id == id) = true
  · rw [if_pos hid]
    exact hf t ht (h t ht)
  · rw [if_neg hid]
    exact h t ht

theorem secretsCleared_pathCheck (base : List String) (t : DownloadTask)
    (h : secretsCleared t) : secretsCleared (startDownloadPathCheck base t) := by
  unfold startDownloadPathCheck
  cases safePathSegment t.accountHash "accountHash" with
  | error e => exact h
  | ok a =>
    cases safePathSegment t.software.bundleID "bundleID" with
    | error e => exact h
    | ok b =>
      cases safePathSegment t.software.version "version" with
      | error e => exact h
      | ok c =>
        dsimp only
        unfold applyDestDirGuard
        by_cases hchk : destDirCheck (normalizePath base)
            (normalizePath (base ++ [a, b, c])) = true
        · rw [if_neg (by rw [hchk]; exact fun hf => hf rfl)]
          intro hst
          exact h hst
        · rw [if_pos (by
            intro hc
            exact hchk hc)]
          intro hst
          exact absurd hst (by simp [TaskStatus.failed])

theorem invSecrets_applyOp (s : MgrState) (op : MgrOp) (h : invSecrets s) :
    invSecrets (applyOp s op) := by
  cases op with
  | create sw acct url pu sf meta nid ca =>
    simp only [applyOp]
    unfold createTask
    cases validateDownloadURL pu with
    | error e => exact h
    | ok u1 =>
      cases safePathSegment acct "accountHash" with
      | error e => exact h
      | ok a =>
        cases safePathSegment sw.bundleID "bundleID" with
        | error e => exact h
        | ok b =>
          cases safePathSegment sw.version "version" with
          | error e => exact h
          | ok c =>
            dsimp only
            intro t ht
            rcases List.mem_append.mp ht with hm | hm
            · exact h t hm
            · simp only [List.mem_singleton] at hm
              subst hm
              intro hst
              exact absurd hst (by simp)
  | startBegin id =>
    simp only [applyOp]
    unfold startBegin
    refine invSecrets_updateTask _ id _ ?_ ?_
    · exact h
    · intro t _ _ hst
      exact absurd hst (by simp)
  | startPath base id =>
    simp only [applyOp]
    unfold startPath
    exact invSecrets_updateTask _ id _ h
      (fun t _ hsec => secretsCleared_pathCheck base t hsec)
  | registerDownloader id =>
    simp only [applyOp]
    exact h
  | progressUpdate id p sp =>
    simp only [applyOp]
    unfold progressUpdate
    refine invSecrets_updateTask _ id _ h ?_
    intro t _ hsec hst
    exact hsec hst
  | downloadOkCleanup id =>
    simp only [applyOp]
    exact h
  | injectingMark id =>
    simp only [applyOp]
    unfold injectingMark
    refine invSecrets_updateTask _ id _ h ?_
    intro t _ hsec
    by_cases hs : t.sinfs ≠ []
    · rw [if_pos hs]
      intro hst
      exact absurd hst (by simp)
    · rw [if_neg hs]
      exact hsec
  | complete id =>
    simp only [applyOp]
    unfold completeStep
    refine invSecrets_updateTask _ id _ h ?_
    intro t _ _ _
    exact ⟨rfl, rfl, rfl⟩
  | errCatch id n =>
    simp only [applyOp]
    unfold startDownloadCatch
    by_cases hn : n = "AbortError"
    · rw [if_pos hn]
      cases hft : findTask (removeIndices s id) id with
      | none => exact h
      | some t =>
        dsimp only
        by_cases hp : t.status = .paused
        · rw [if_pos hp]
          exact h
        · rw [if_neg hp]
          refine invSecrets_updateTask _ id _ h ?_
          intro u _ _ hst
          exact absurd hst (by simp)
    · rw [if_neg hn]
      refine invSecrets_updateTask _ id _ h ?_
      intro u _ _ hst
      exact absurd hst (by simp)
  | pause id =>
    simp only [applyOp]
    unfold pauseTask
    cases hft : findTask s id with
    | none => exact h
    | some t =>
      dsimp only
      by_cases hp : t.status ≠ .downloading
      · rw [if_pos hp]
        exact h
      · rw [if_neg hp]
        dsimp only
        refine invSecrets_updateTask _ id _ h ?_
        intro u _ _ hst
        exact absurd hst (by simp)
  | resume id =>
    simp only [applyOp]
    unfold resumeTask
    cases hft : findTask s id with
    | none => exact h
    | some t =>
      dsimp only
      by_cases hp : t.status ≠ .paused
      · rw [if_pos hp]
        exact h
      · rw [if_neg hp]
        exact h
  | deleteT base disk id =>
    simp only [applyOp]
    unfold deleteTask
    cases hft : findTask s id with
    | none => exact h
    | some t =>
      dsimp only
      intro u hu
      have := List.mem_filter.mp hu
      exact h u this.1

theorem invSecrets_setTask (s : MgrState) (t : DownloadTask) (h : invSecrets s)
    (ht : secretsCleared t) : invSecrets (setTask s t) := by
  unfold setTask
  by_cases hc : s.tasks.any (fun u => u.id == t.id) = true
  · rw [if_pos hc]
    exact invSecrets_updateTask _ _ _ h (fun _ _ _ => ht)
  · rw [if_neg hc]
    intro u hu
    rcases List.mem_append.mp hu with hm | hm
    · exact h u hm
    · simp only [List.mem_singleton] at hm
      subst hm
      exact ht

theorem invSecrets_initOnStartup (items : List RestoreItem) :
    invSecrets (initOnStartupState items) := by
  unfold initOnStartupState
  have hgen : ∀ (l : List RestoreItem) (s : MgrState), invSecrets s →
      invSecrets (l.foldl (fun s it => setTask s (restoreTask it)) s) := by
    intro l
    induction l with
    | nil => intro s hs; exact hs
    | cons it rest ih =>
      intro s hs
      rw [List.foldl_cons]
      exact ih _ (invSecrets_setTask s (restoreTask it) hs
        (fun _ => ⟨rfl, rfl, rfl⟩))
  exact hgen _ _ (by intro t ht; exact absurd ht (List.not_mem_nil t))

/-- C1: starting from the state restored from the on-disk snapshot and
applying any sequence of manager operations, every task that is in
status `completed` at any observable point has `downloadURL = ""`,
`sinfs = []` and no `iTunesMetadata` — including the restored tasks
themselves. -/
theorem completed_tasks_have_no_secrets (items : List RestoreItem) (ops : List MgrOp) :
    invSecrets (ops.foldl applyOp (initOnStartupState items)) := by
  have hgen : ∀ (l : List MgrOp) (s : MgrState), invSecrets s →
      invSecrets (l.foldl applyOp s) := by
    intro l
    induction l with
    | nil => intro s hs; exact hs
    | cons op rest ih =>
      intro s hs
      rw [List.foldl_cons]
      exact ih _ (invSecrets_applyOp s op hs)
  exact hgen ops _ (invSecrets_initOnStartup items)

/-- A concrete admissible snapshot item for witnesses. -/
def restoreItemW : RestoreItem :=
  { id := "r1",
    software := { name := "X", bundleID := "com.x.app", version := "1.0" },
    accountHash := "acct1", statusField := "completed",
    filePath := some ["data", "packages", "acct1", "com.x.app", "1.0", "r1.ipa"],
    fileExists := true, createdAt := "2026-01-01T00:00:00Z" }

/-- Witness for C1 at a concrete input: the task restored from
`restoreItemW` is completed and carries no secrets. -/
theorem completed_tasks_have_no_secrets_witness :
    (restoreTask restoreItemW).downloadURL = "" ∧
    (restoreTask restoreItemW).sinfs = [] ∧
    (restoreTask restoreItemW).iTunesMetadata = none :=
  completed_tasks_have_no_secrets [restoreItemW] [MgrOp.progressUpdate "none" 0 "0 B/s"]
    (restoreTask restoreItemW) (by decide) (by decide)

/-! ## C10: precondition-failing lifecycle calls are pure no-ops -/

/-- C10: `pauseTask` returns `false` and leaves the state untouched
unless the task exists with status `downloading`; `resumeTask` likewise
unless it exists with status `paused`; `deleteTask` returns `false` with
no state change and no file unlinked when the task does not exist. -/
theorem lifecycle_precondition_noops (base : List String)
    (disk : List String → Bool) (s : MgrState) (id : String) :
    ((∀ t, findTask s id = some t → t.status ≠ .downloading) →
      pauseTask s id = (false, s)) ∧
    ((∀ t, findTask s id = some t → t.status ≠ .paused) →
      resumeTask s id = (false, s)) ∧
    (findTask s id = none → deleteTask base disk s id = (false, s, none)) := by
  refine ⟨?_, ?_, ?_⟩
  · intro hpre
    unfold pauseTask
    cases hft : findTask s id with
    | none => rfl
    | some t =>
      dsimp only
      rw [if_pos (hpre t hft)]
  · intro hpre
    unfold resumeTask
    cases hft : findTask s id with
    | none => rfl
    | some t =>
      dsimp only
      rw [if_pos (hpre t hft)]
  · intro hpre
    unfold deleteTask
    rw [hpre]

/-- Witness for C10 at concrete inputs: on the empty state all three
operations return `false` and change nothing. -/
theorem lifecycle_precondition_noops_witness :
    pauseTask ⟨[], [], []⟩ "absent" = (false, ⟨[], [], []⟩) ∧
    resumeTask ⟨[], [], []⟩ "absent" = (false, ⟨[], [], []⟩) ∧
    deleteTask ["data", "packages"] (fun _ => false) ⟨[], [], []⟩ "absent" =
      (false, ⟨[], [], []⟩, none) :=
  ⟨(lifecycle_precondition_noops ["data", "packages"] (fun _ => false)
      ⟨[], [], []⟩ "absent").1 (fun t ht => by simp [findTask] at ht),
   (lifecycle_precondition_noops ["data", "packages"] (fun _ => false)
      ⟨[], [], []⟩ "absent").2.1 (fun t ht => by simp [findTask] at ht),
   (lifecycle_precondition_noops ["data", "packages"] (fun _ => false)
      ⟨[], [], []⟩ "absent").2.2 (by rfl)⟩

/-! ## C4: the catch block of `startDownload` -/

theorem find?_map_update (tasks : List DownloadTask) (id : String)
    (f : DownloadTask → DownloadTask) (hf : ∀ t, (f t).id = t.id) :
    (tasks.map (fun t => if t.id == id then f t else t)).find? (fun t => t.id == id) =
      (tasks.find? (fun t => t.id == id)).map f := by
  induction tasks with
  | nil => rfl
  | cons t rest ih =>
    rw [List.map_cons]
    by_cases h : (t.id == id) = true
    · have h2 : ((f t).id == id) = true := by rw [hf t]; exact h
      rw [if_pos h]
      simp [List.find?, h, h2]
    · have h' : (t.id == id) = false := by
        rw [Bool.not_eq_true] at h
        exact h
      rw [if_neg (by rw [h']; exact Bool.false_ne_true)]
      simp only [List.find?, h']
      exact ih

theorem findTask_updateTask (s : MgrState) (id : String)
    (f : DownloadTask → DownloadTask) (hf : ∀ t, (f t).id = t.id) :
    findTask (updateTask s id f) id = (findTask s id).map f :=
  find?_map_update s.tasks id f hf

theorem mem_updateTask_of_ne (s : MgrState) (id : String)
    (f : DownloadTask → DownloadTask) (u : DownloadTask) (hu : u ∈ s.tasks)
    (hne : u.id ≠ id) : u ∈ (updateTask s id f).tasks := by
  unfold updateTask
  refine List.mem_map.mpr ⟨u, hu, ?_⟩
  rw [if_neg (by simpa using hne)]

/-- C4: when the awaited download rejects inside `startDownload`: an
`AbortError` while the task's status is `paused` (set by `pauseTask`)
leaves the task map unchanged — no status change and no error set; an
`AbortError` otherwise transitions the task to `failed` with error
`Download timed out`; any other error transitions it to `failed` with
error `Download failed`; tasks with a different id are never touched. -/
theorem startDownloadCatch_correct (s : MgrState) (id errName : String) :
    (errName = "AbortError" →
      ∀ t, findTask s id = some t → t.status = .paused →
        (startDownloadCatch s id errName).tasks = s.tasks) ∧
    (∀ t, findTask s id = some t → errName = "AbortError" → t.status ≠ .paused →
      findTask (startDownloadCatch s id errName) id =
        some { t with status := .failed, error := some "Download timed out" }) ∧
    (∀ t, findTask s id = some t → errName ≠ "AbortError" →
      findTask (startDownloadCatch s id errName) id =
        some { t with status := .failed, error := some "Download failed" }) ∧
    (∀ u ∈ s.tasks, u.id ≠ id → u ∈ (startDownloadCatch s id errName).tasks) := by
  have hfind : findTask (removeIndices s id) id = findTask s id := rfl
  refine ⟨?_, ?_, ?_, ?_⟩
  · intro hn t hft hp
    unfold startDownloadCatch
    rw [if_pos hn, hfind, hft]
    dsimp only
    rw [if_pos hp]
    rfl
  · intro t hft hn hp
    unfold startDownloadCatch
    rw [if_pos hn, hfind, hft]
    dsimp only
    rw [if_neg hp]
    rw [findTask_updateTask (removeIndices s id) id
      (fun u => { u with status := .failed, error := some "Download timed out" })
      (fun u => rfl)]
    rw [show findTask (removeIndices s id) id = some t from hft]
    rfl
  · intro t hft hn
    unfold startDownloadCatch
    rw [if_neg hn]
    rw [findTask_updateTask (removeIndices s id) id
      (fun u => { u with status := .failed, error := some "Download failed" })
      (fun u => rfl)]
    rw [show findTask (removeIndices s id) id = some t from hft]
    rfl
  · intro u hu hne
    unfold startDownloadCatch
    by_cases hn : errName = "AbortError"
    · rw [if_pos hn]
      cases hft : findTask (removeIndices s id) id with
      | none => exact hu
      | some t =>
        dsimp only
        by_cases hp : t.status = .paused
        · rw [if_pos hp]
          exact hu
        · rw [if_neg hp]
          exact mem_updateTask_of_ne _ id _ u hu hne
    · rw [if_neg hn]
      exact mem_updateTask_of_ne _ id _ u hu hne

/-- Concrete tasks and state for the C4 witness. -/
def pausedTaskW : DownloadTask :=
  { witnessTask with id := "p1", status := .paused }

def downloadingTaskW : DownloadTask :=
  { witnessTask with id := "d1", status := .downloading }

def mgrW : MgrState := ⟨[pausedTaskW, downloadingTaskW], ["d1"], ["d1"]⟩

/-- Witness for C4 at concrete inputs: an `AbortError` on the paused
task changes nothing; an `AbortError` on the downloading task fails it
with `Download timed out`; a `TypeError` fails it with
`Download failed`. -/
theorem startDownloadCatch_correct_witness :
    (startDownloadCatch mgrW "p1" "AbortError").tasks = mgrW.tasks ∧
    findTask (startDownloadCatch mgrW "d1" "AbortError") "d1" =
      some { downloadingTaskW with
             status := .failed, error := some "Download timed out" } ∧
    findTask (startDownloadCatch mgrW "d1" "TypeError") "d1" =
      some { downloadingTaskW with
             status := .failed, error := some "Download failed" } :=
  ⟨(startDownloadCatch_correct mgrW "p1" "AbortError").1 rfl pausedTaskW
      (by rfl) (by rfl),
   (startDownloadCatch_correct mgrW "d1" "AbortError").2.1 downloadingTaskW
      (by rfl) rfl (by decide),
   (startDownloadCatch_correct mgrW "d1" "TypeError").2.2.1 downloadingTaskW
      (by rfl) (by decide)⟩

/-! ## Sinf injection (`inject` / `readIpaMetadata`, sinfInjector.ts) -/

/-- A parsed property-list value, as far as the injector inspects it:
`SinfPaths` must be an array (of strings, per the source's cast) and
`CFBundleExecutable` a string; anything else is `other`. -/
inductive PVal
  | str (s : String)
  | strArr (l : List String)
  | other
deriving DecidableEq

/-- An archive entry: its filename and the result of `parsePlistBuffer`
on its bytes (`none` when they parse as neither binary nor XML plist;
the plist parsers are third-party libraries). -/
structure ZipEntry where
  filename : String
  parsed : Option (List (String × PVal))
deriving DecidableEq

/-- Tail-scanning substring search, kernel computable. -/
def containsTail (pat : List Char) : List Char → Bool
  | [] => List.isPrefixOf pat []
  | c :: rest => List.isPrefixOf pat (c :: rest) || containsTail pat rest

/-- `s.includes(pat)`. -/
def containsSubstr (s pat : String) : Bool := containsTail pat.data s.data

/-- `filename.includes(".app/Info.plist") && !filename.includes("/Watch/")`
(readIpaMetadata, sinfInjector section lines 622-627 and 643-648). -/
def appInfoPlistEntry (fn : String) : Bool :=
  containsSubstr fn ".app/Info.plist" && !containsSubstr fn "/Watch/"

/-- Lines 628-634: the first `/`-separated component ending in `.app`,
with that suffix removed. -/
def bundleFromFilename (fn : String) : Option String :=
  (((splitOnChar (Char.ofNat 47) fn.data).map String.mk).find?
      (fun comp => strEndsWith comp ".app")).map
    (fun comp => ⟨comp.data.take (comp.data.length - 4)⟩)

/-- Loop state of `readIpaMetadata`: bundle name and the cached parse
results of Manifest.plist / Info.plist (outer `none` = not yet read). -/
structure IpaScan where
  bundleName : Option String
  manifestParsed : Option (Option (List (String × PVal)))
  infoParsed : Option (Option (List (String × PVal)))

/-- JavaScript falsiness of the `bundleName` variable
(`string | null`): both `null` and the empty string are falsy, so a
`.app` component that reduces to `""` does not count as a found bundle
name — the scan keeps going and a later entry may overwrite it. -/
def bundleFalsy : Option String → Bool
  | none => true
  | some b => b == ""

/-- One iteration of the entry loop (lines 619-652): first truthy match
wins for the bundle name (`!bundleName && ...`), first read wins for
each cached plist (Buffers are always truthy, so `null` alone is
"unset" there). -/
def scanStep (st : IpaScan) (e : ZipEntry) : IpaScan :=
  let st1 :=
    if bundleFalsy st.bundleName && appInfoPlistEntry e.filename then
      match bundleFromFilename e.filename with
      | some b => { st with bundleName := some b }
      | none => st
    else st
  let st2 :=
    if st1.manifestParsed.isNone &&
        strEndsWith e.filename ".app/SC_Info/Manifest.plist" then
      { st1 with manifestParsed := some e.parsed }
    else st1
  if st2.infoParsed.isNone && appInfoPlistEntry e.filename then
    { st2 with infoParsed := some e.parsed }
  else st2

def lookupPlist (d : List (String × PVal)) (k : String) : Option PVal :=
  (d.find? (fun kv => kv.1 == k)).map (fun kv => kv.2)

/-- `readIpaMetadata(ipaPath)` (sinfInjector.ts lines 612-686) over the
archive's entry list: the bundle name (the final `if (!bundleName)
throw` fails with `Could not read bundle name` when it is still `null`
or the empty string), the manifest's `SinfPaths` when present and an
array, and the info plist's `CFBundleExecutable` when present and a
string. -/
def readIpaMetadata (entries : List ZipEntry) :
    Except String (String × Option (List String) × Option String) :=
  let st := entries.foldl scanStep ⟨none, none, none⟩
  match st.bundleName with
  | none => .error "Could not read bundle name"
  | some bundle =>
    if bundle = "" then .error "Could not read bundle name"
    else
    let manifest : Option (List String) :=
      match st.manifestParsed with
      | some (some d) =>
        match lookupPlist d "SinfPaths" with
        | some (.strArr l) => some l
        | _ => none
      | _ => none
    let info : Option String :=
      match st.infoParsed with
      | some (some d) =>
        match lookupPlist d "CFBundleExecutable" with
        | some (.str s) => some s
        | _ => none
      | _ => none
    .ok (bundle, manifest, info)

/-- Data staged for one archive entry: a decoded signature blob (kept as
its base64 source text) or the transcoded metadata document. -/
inductive InjData
  | sinfBlob (base64 : String)
  | metadataBlob (base64 : String)
deriving DecidableEq

/-- The archive-root metadata entry staged when `iTunesMetadata` is
provided (sinfInjector.ts lines 583-597). -/
def metaEntries : Option String → List (String × InjData)
  | some m => [("iTunesMetadata.plist", InjData.metadataBlob m)]
  | none => []

/-- `inject(sinfs, ipaPath, iTunesMetadata)` (sinfInjector.ts lines
548-602), returning the staged entry list instead of mutating the
archive: with a manifest, `SinfPaths[i]` is paired with `sinfs[i]` up to
the shorter list; otherwise the info-plist fallback stages a single
`SC_Info/<executable>.sinf` when a blob exists; otherwise the call
fails; a provided metadata document appends the archive-root entry. -/
def inject (sinfs : List Sinf) (entries : List ZipEntry)
    (iTunesMetadata : Option String) : Except String (List (String × InjData)) :=
  match readIpaMetadata entries with
  | .error e => .error e
  | .ok (bundle, manifest, info) =>
    match manifest with
    | some sinfPaths =>
      .ok ((List.zip sinfPaths sinfs).map (fun pr =>
        ("Payload/" ++ bundle ++ ".app/" ++ pr.1, InjData.sinfBlob pr.2.sinf)) ++
        metaEntries iTunesMetadata)
    | none =>
      match info with
      | some exe =>
        .ok ((match sinfs with
          | s0 :: _ =>
            [("Payload/" ++ bundle ++ ".app/SC_Info/" ++ exe ++ ".sinf",
              InjData.sinfBlob s0.sinf)]
          | [] => []) ++ metaEntries iTunesMetadata)
      | none => .error "Could not read manifest or info plist"

/-- Counterexample to C9's "if and only if": the empty archive yields
neither a manifest nor an info plist, yet `inject` fails with
`Could not read bundle name`, not with
`Could not read manifest or info plist`. -/
theorem inject_error_iff_counterexample :
    inject [] [] none = .error "Could not read bundle name" ∧
    inject [] [] none ≠ .error "Could not read manifest or info plist" :=
  ⟨rfl, by
    intro h
    rw [show inject [] [] none = Except.error "Could not read bundle name" from rfl] at h
    exact absurd (Except.error.inj h) (by decide)⟩

theorem zip_get?_eq_some {α β : Type} :
    ∀ (l1 : List α) (l2 : List β) (i : Nat) (x : α) (y : β),
      l1[i]? = some x → l2[i]? = some y → (l1.zip l2)[i]? = some (x, y) := by
  intro l1
  induction l1 with
  | nil => intro l2 i x y hx; simp at hx
  | cons a rest ih =>
    intro l2 i x y hx hy
    cases l2 with
    | nil => simp at hy
    | cons b rest2 =>
      cases i with
      | zero =>
        simp only [List.getElem?_cons_zero, Option.some.injEq] at hx hy
        simp [List.zip_cons_cons, hx, hy]
      | succ i =>
        simp only [List.getElem?_cons_succ] at hx hy
        simp only [List.zip_cons_cons, List.getElem?_cons_succ]
        exact ih rest2 i x y hx hy

/-- C9 (amended): provided the archive yields a bundle name, `inject`
fails with `Could not read manifest or info plist` exactly when neither
a manifest `SinfPaths` array nor an info-plist `CFBundleExecutable`
string is found (an archive with no bundle name fails with `Could not
read bundle name` first, as the counterexample shows); with a manifest,
the staged signature entries are exactly
`Payload/<bundle>.app/<SinfPaths[i]>` paired with `sinfs[i]` for
`i < min(len(SinfPaths), len(sinfs))`, followed only by the optional
metadata entry; with only an info plist and at least one blob, the
single signature target is
`Payload/<bundle>.app/SC_Info/<CFBundleExecutable>.sinf` with
`sinfs[0]`; and a metadata-read failure propagates unchanged. -/
theorem inject_correct (sinfs : List Sinf) (entries : List ZipEntry)
    (meta : Option String) :
    (∀ bundle manifest info,
      readIpaMetadata entries = .ok (bundle, manifest, info) →
      (inject sinfs entries meta = .error "Could not read manifest or info plist" ↔
        manifest = none ∧ info = none)) ∧
    (∀ bundle sinfPaths info files,
      readIpaMetadata entries = .ok (bundle, some sinfPaths, info) →
      inject sinfs entries meta = .ok files →
      files.length = min sinfPaths.length sinfs.length + (metaEntries meta).length ∧
      (∀ (i : Nat) (p : String) (sf : Sinf),
        sinfPaths[i]? = some p → sinfs[i]? = some sf →
        files[i]? =
          some ("Payload/" ++ bundle ++ ".app/" ++ p, InjData.sinfBlob sf.sinf)) ∧
      (∀ m, meta = some m →
        files.getLast? = some ("iTunesMetadata.plist", InjData.metadataBlob m))) ∧
    (∀ bundle exe s0 rest,
      readIpaMetadata entries = .ok (bundle, none, some exe) → sinfs = s0 :: rest →
      inject sinfs entries meta =
        .ok ([("Payload/" ++ bundle ++ ".app/SC_Info/" ++ exe ++ ".sinf",
          InjData.sinfBlob s0.sinf)] ++ metaEntries meta)) ∧
    (∀ e, readIpaMetadata entries = .error e →
      inject sinfs entries meta = .error e) := by
  refine ⟨?_, ?_, ?_, ?_⟩
  · intro bundle manifest info hmeta
    unfold inject
    rw [hmeta]
    dsimp only
    cases manifest with
    | some sinfPaths =>
      constructor
      · intro h; exact absurd h (by simp)
      · rintro ⟨h1, _⟩; exact absurd h1 (by simp)
    | none =>
      cases info with
      | some exe =>
        constructor
        · intro h; exact absurd h (by simp)
        · rintro ⟨_, h2⟩; exact absurd h2 (by simp)
      | none => exact ⟨fun _ => ⟨rfl, rfl⟩, fun _ => rfl⟩
  · intro bundle sinfPaths info files hmeta hinj
    unfold inject at hinj
    rw [hmeta] at hinj
    dsimp only at hinj
    have hfiles : files =
        (List.zip sinfPaths sinfs).map (fun pr =>
          ("Payload/" ++ bundle ++ ".app/" ++ pr.1, InjData.sinfBlob pr.2.sinf)) ++
          metaEntries meta := (Except.ok.inj hinj).symm
    subst hfiles
    refine ⟨?_, ?_, ?_⟩
    · rw [List.length_append, List.length_map, List.length_zip]
    · intro i p sf hp hsf
      have hi : i < sinfPaths.length := (List.getElem?_eq_some.mp hp).1
      have hi2 : i < sinfs.length := (List.getElem?_eq_some.mp hsf).1
      rw [List.getElem?_append_left (by
        rw [List.length_map, List.length_zip]
        exact lt_min hi hi2)]
      rw [List.getElem?_map]
      rw [zip_get?_eq_some sinfPaths sinfs i p sf hp hsf]
      rfl
    · rintro m rfl
      exact List.getLast?_concat _
  · intro bundle exe s0 rest hmeta hs
    unfold inject
    rw [hmeta, hs]
  · intro e herr
    unfold inject
    rw [herr]

/-- A concrete two-entry archive for the C9 witness: an app Info.plist
naming the executable and a manifest listing one sinf path. -/
def zipEntriesW : List ZipEntry :=
  [ { filename := "Payload/XApp.app/Info.plist",
      parsed := some [("CFBundleExecutable", PVal.str "XApp")] },
    { filename := "Payload/XApp.app/SC_Info/Manifest.plist",
      parsed := some [("SinfPaths", PVal.strArr ["SC_Info/XApp.sinf"])] } ]

/-- Witness for the amended C9 at concrete inputs: on `zipEntriesW` with
one blob and no metadata, the staged list pairs the manifest path with
the blob. -/
theorem inject_correct_witness :
    ([("Payload/XApp.app/SC_Info/XApp.sinf",
        InjData.sinfBlob "QUJD")] : List (String × InjData))[0]? =
      some ("Payload/" ++ "XApp" ++ ".app/" ++ "SC_Info/XApp.sinf",
        InjData.sinfBlob (Sinf.mk 0 "QUJD").sinf) :=
  ((inject_correct [Sinf.mk 0 "QUJD"] zipEntriesW none).2.1
      "XApp" ["SC_Info/XApp.sinf"] (some "XApp")
      [("Payload/XApp.app/SC_Info/XApp.sinf", InjData.sinfBlob "QUJD")]
      (by rfl) (by rfl)).2.1 0 "SC_Info/XApp.sinf" (Sinf.mk 0 "QUJD")
      (by rfl) (by rfl)

end Asspp
